import Mathlib

/-!
Verification of the ConfigAlchemy conversion service (`src/index.js`).

The development shallowly embeds the program: the generic value tree that
JavaScript objects decoded from JSON/YAML/TOML form, the `toLua` encoder,
the `getFormatHint` error-hint selector, and the `POST /convert` handler's
validation and conversion pipeline.  External format libraries (js-yaml,
smol-toml, the built-in JSON object) are not part of the repository's
source; where a claim depends on them they are either modelled from the
specification (JSON) or abstracted as parameters (YAML, TOML).
-/

namespace ConfigAlchemy

/-- The generic value model of spec section 3: the tagged union every format
decodes into and encodes from.  JavaScript numbers are modelled as integers;
floating-point values are outside the shallow embedding. -/
inductive Value where
  | null
  | bool (b : Bool)
  | num (n : Int)
  | str (s : String)
  | seq (elems : List Value)
  | mapping (entries : List (String × Value))

/-- Embeds the JavaScript expression `obj.replace(/"/g, '\\"')` from
`toLua` (src/index.js line 21): every double-quote character is replaced by
a backslash followed by a double quote; all other characters are copied. -/
def escapeQuotes (s : String) : String :=
  String.mk ((s.data.map (fun c => if c = '"' then ['\\', '"'] else [c])).flatten)

/-- The decimal digit character of a value below 10. -/
def decDigit : Nat → Char
  | 0 => '0' | 1 => '1' | 2 => '2' | 3 => '3' | 4 => '4'
  | 5 => '5' | 6 => '6' | 7 => '7' | 8 => '8' | _ => '9'

/-- Fuel-driven loop producing the decimal digits of a natural number in
front of an accumulator; the fuel only needs to exceed the digit count. -/
def natDecGo : Nat → Nat → List Char → List Char
  | 0, _, acc => acc
  | fuel + 1, n, acc =>
    if n < 10 then decDigit n :: acc
    else natDecGo fuel (n / 10) (decDigit (n % 10) :: acc)

/-- Decimal rendering of a natural number, as JavaScript `JSON.stringify`
renders integral numbers. -/
def natDec (n : Nat) : String :=
  String.mk (natDecGo (n + 1) n [])

/-- Decimal rendering of an integer, as JavaScript renders integral
numbers (`JSON.stringify(obj)` on a number, src/index.js line 22). -/
def intDec (n : Int) : String :=
  if n < 0 then "-" ++ natDec n.natAbs else natDec n.natAbs

mutual

/-- Embeds `toLua` (src/index.js lines 18-33): null becomes `nil`, strings
are double-quoted with embedded quotes escaped, other primitives use their
JSON rendering, arrays become positional tables, objects become tables with
bracketed string keys, joined by comma-space. -/
def toLua : Value → String
  | .null => "nil"
  | .bool b => if b then "true" else "false"
  | .num n => intDec n
  | .str s => "\"" ++ escapeQuotes s ++ "\""
  | .seq vs => "\x7b " ++ luaElems vs ++ " \x7d"
  | .mapping kvs => "\x7b " ++ luaFields kvs ++ " \x7d"

/-- Embeds `obj.map((v) => toLua(v)).join(", ")` (src/index.js lines 26-27). -/
def luaElems : List Value → String
  | [] => ""
  | [v] => toLua v
  | v :: v' :: vs => toLua v ++ ", " ++ luaElems (v' :: vs)

/-- Embeds `Object.entries(obj).map(([k, v]) => ...).join(", ")`
(src/index.js line 31): each entry is rendered as a bracketed string key,
the key text itself copied verbatim. -/
def luaFields : List (String × Value) → String
  | [] => ""
  | [kv] => "[\"" ++ kv.1 ++ "\"] = " ++ toLua kv.2
  | kv :: kv' :: kvs =>
      "[\"" ++ kv.1 ++ "\"] = " ++ toLua kv.2 ++ ", " ++ luaFields (kv' :: kvs)

end

/-- The value tree that decoding the YAML document
`database:\n  host: localhost\n  port: 5432` produces. -/
def dbValue : Value :=
  .mapping [("database",
    .mapping [("host", .str "localhost"), ("port", .num 5432)])]

/-- The expected Lua output of spec section 8, scenario 2. -/
def scenario2Result : String :=
  "return \x7b [\"database\"] = \x7b [\"host\"] = \"localhost\", [\"port\"] = 5432 \x7d \x7d"

/-- Lowercase hexadecimal digit character for a value below 16. -/
def hexDigit : Nat → Char
  | 0 => '0' | 1 => '1' | 2 => '2' | 3 => '3' | 4 => '4'
  | 5 => '5' | 6 => '6' | 7 => '7' | 8 => '8' | 9 => '9'
  | 10 => 'a' | 11 => 'b' | 12 => 'c' | 13 => 'd' | 14 => 'e' | _ => 'f'

/-- Modelled from the spec: the escaping `JSON.stringify` applies inside
string literals (standard strict JSON; the JSON built-in used at
src/index.js line 219 is not part of the repository source). -/
def escJsonChar (c : Char) : List Char :=
  if c = '"' then ['\\', '"']
  else if c = '\\' then ['\\', '\\']
  else if c = '\n' then ['\\', 'n']
  else if c = '\r' then ['\\', 'r']
  else if c = '\t' then ['\\', 't']
  else if c.toNat = 8 then ['\\', 'b']
  else if c.toNat = 12 then ['\\', 'f']
  else if c.toNat < 32 then
    ['\\', 'u', '0', '0', hexDigit (c.toNat / 16), hexDigit (c.toNat % 16)]
  else [c]

/-- Escaped body of a JSON string literal. -/
def escJsonString (cs : List Char) : List Char := (cs.map escJsonChar).flatten

/-- A complete JSON string literal for the given text. -/
def strLitChars (s : String) : List Char := '"' :: (escJsonString s.data ++ ['"'])

/-- Indentation: `n` space characters. -/
def indentChars (n : Nat) : List Char := List.replicate n ' '

mutual

/-- Modelled from the spec: `JSON.stringify(data, null, 2)` (src/index.js
line 219 uses the JSON built-in, outside the repository source) —
deterministic pretty-printing with two-space indentation; `ind` is the
indentation depth of the surrounding container. -/
def jsonChars : Nat → Value → List Char
  | _, .null => ['n', 'u', 'l', 'l']
  | _, .bool true => ['t', 'r', 'u', 'e']
  | _, .bool false => ['f', 'a', 'l', 's', 'e']
  | _, .num n => (intDec n).data
  | _, .str s => strLitChars s
  | _, .seq [] => ['[', ']']
  | ind, .seq (v :: vs) =>
      '[' :: '\n' :: (jsonItems (ind + 2) (v :: vs) ++ '\n' :: (indentChars ind ++ [']']))
  | _, .mapping [] => ['{', '}']
  | ind, .mapping (kv :: kvs) =>
      '{' :: '\n' :: (jsonMembers (ind + 2) (kv :: kvs) ++ '\n' :: (indentChars ind ++ ['}']))

/-- Array items, each on its own indented line, comma-newline separated. -/
def jsonItems : Nat → List Value → List Char
  | _, [] => []
  | ind, [v] => indentChars ind ++ jsonChars ind v
  | ind, v :: v' :: vs =>
      indentChars ind ++ (jsonChars ind v ++ ',' :: '\n' :: jsonItems ind (v' :: vs))

/-- Object members, each on its own indented line, comma-newline separated. -/
def jsonMembers : Nat → List (String × Value) → List Char
  | _, [] => []
  | ind, [kv] => indentChars ind ++ (strLitChars kv.1 ++ ':' :: ' ' :: jsonChars ind kv.2)
  | ind, kv :: kv' :: kvs =>
      indentChars ind ++ (strLitChars kv.1 ++ ':' :: ' ' ::
        (jsonChars ind kv.2 ++ ',' :: '\n' :: jsonMembers ind (kv' :: kvs)))

end

/-- The modelled `JSON.stringify(data, null, 2)`. -/
def jsonStringify (v : Value) : String := String.mk (jsonChars 0 v)

/-- The JSON whitespace characters. -/
def isJsonWs (c : Char) : Bool := c = ' ' || c = '\t' || c = '\n' || c = '\r'

/-- Drops leading JSON whitespace. -/
def skipWs : List Char → List Char
  | [] => []
  | c :: cs => if isJsonWs c then skipWs cs else c :: cs

/-- Decimal digit test. -/
def isDigitChar (c : Char) : Bool := 48 ≤ c.toNat && c.toNat ≤ 57

/-- Value of a decimal digit character. -/
def digitVal (c : Char) : Nat := c.toNat - 48

/-- Reads a maximal run of decimal digits into an accumulator. -/
def readDigits : List Char → Nat → Nat × List Char
  | [], acc => (acc, [])
  | c :: cs, acc =>
      if isDigitChar c then readDigits cs (acc * 10 + digitVal c) else (acc, c :: cs)

/-- Value of a hexadecimal digit character, either case. -/
def hexVal (c : Char) : Option Nat :=
  if 48 ≤ c.toNat ∧ c.toNat ≤ 57 then some (c.toNat - 48)
  else if 97 ≤ c.toNat ∧ c.toNat ≤ 102 then some (c.toNat - 87)
  else if 65 ≤ c.toNat ∧ c.toNat ≤ 70 then some (c.toNat - 55)
  else none

/-- The single-character JSON escapes. -/
def unescapeChar (c : Char) : Option Char :=
  if c = '"' then some '"'
  else if c = '\\' then some '\\'
  else if c = '/' then some '/'
  else if c = 'b' then some (Char.ofNat 8)
  else if c = 'f' then some (Char.ofNat 12)
  else if c = 'n' then some '\n'
  else if c = 'r' then some '\r'
  else if c = 't' then some '\t'
  else none

/-- Unicode scalar test for the value of a `\u` escape. -/
def validScalar (n : Nat) : Bool := n < 55296 || (57344 ≤ n && n < 1114112)

/-- Reads the remainder of a JSON string literal after the opening quote,
accumulating the decoded characters in reverse. -/
def readStr : List Char → List Char → Option (String × List Char)
  | [], _ => none
  | '"' :: cs, acc => some (String.mk acc.reverse, cs)
  | '\\' :: 'u' :: h1 :: h2 :: h3 :: h4 :: cs, acc =>
      match hexVal h1, hexVal h2, hexVal h3, hexVal h4 with
      | some a, some b, some c, some d =>
        let n := ((a * 16 + b) * 16 + c) * 16 + d
        if validScalar n then readStr cs (Char.ofNat n :: acc) else none
      | _, _, _, _ => none
  | '\\' :: e :: cs, acc =>
      match unescapeChar e with
      | some c => readStr cs (c :: acc)
      | none => none
  | c :: cs, acc => if c.toNat < 32 then none else readStr cs (c :: acc)

mutual

/-- Modelled from the spec: standard strict JSON decoding (`JSON.parse`,
src/index.js line 198 uses the JSON built-in, outside the repository
source).  Number literals are restricted to integers: floating-point is
outside the shallow embedding.  The fuel only needs to exceed the nesting
structure of the input. -/
def parseVal : Nat → List Char → Option (Value × List Char)
  | 0, _ => none
  | fuel + 1, cs =>
    match skipWs cs with
    | '{' :: rest =>
      match skipWs rest with
      | '}' :: rest' => some (.mapping [], rest')
      | _ =>
        match parseMembers fuel rest with
        | some (kvs, rest') => some (.mapping kvs, rest')
        | none => none
    | '[' :: rest =>
      match skipWs rest with
      | ']' :: rest' => some (.seq [], rest')
      | _ =>
        match parseItems fuel rest with
        | some (vs, rest') => some (.seq vs, rest')
        | none => none
    | '"' :: rest =>
      match readStr rest [] with
      | some (s, rest') => some (.str s, rest')
      | none => none
    | 't' :: 'r' :: 'u' :: 'e' :: rest => some (.bool true, rest)
    | 'f' :: 'a' :: 'l' :: 's' :: 'e' :: rest => some (.bool false, rest)
    | 'n' :: 'u' :: 'l' :: 'l' :: rest => some (.null, rest)
    | '-' :: c :: rest =>
      if isDigitChar c then
        match readDigits rest (digitVal c) with
        | (n, rest') => some (.num (-(n : Int)), rest')
      else none
    | c :: rest =>
      if isDigitChar c then
        match readDigits rest (digitVal c) with
        | (n, rest') => some (.num (n : Int), rest')
      else none
    | [] => none

/-- Comma-separated array items up to and including the closing bracket. -/
def parseItems : Nat → List Char → Option (List Value × List Char)
  | 0, _ => none
  | fuel + 1, cs =>
    match parseVal fuel cs with
    | none => none
    | some (v, rest) =>
      match skipWs rest with
      | ',' :: rest' =>
        match parseItems fuel rest' with
        | some (vs, rest'') => some (v :: vs, rest'')
        | none => none
      | ']' :: rest' => some ([v], rest')
      | _ => none

/-- Comma-separated object members up to and including the closing brace. -/
def parseMembers : Nat → List Char → Option (List (String × Value) × List Char)
  | 0, _ => none
  | fuel + 1, cs =>
    match skipWs cs with
    | '"' :: rest =>
      match readStr rest [] with
      | none => none
      | some (k, rest1) =>
        match skipWs rest1 with
        | ':' :: rest2 =>
          match parseVal fuel rest2 with
          | none => none
          | some (v, rest3) =>
            match skipWs rest3 with
            | ',' :: rest4 =>
              match parseMembers fuel rest4 with
              | some (kvs, rest5) => some ((k, v) :: kvs, rest5)
              | none => none
            | '}' :: rest4 => some ([(k, v)], rest4)
            | _ => none
        | _ => none
    | _ => none

end

/-- The modelled `JSON.parse`: a complete value with only whitespace
around it. -/
def jsonParse (s : String) : Option Value :=
  match parseVal (s.length + 1) s.data with
  | some (v, rest) => if skipWs rest = [] then some v else none
  | none => none

/-- The supported-format list (src/index.js line 39). -/
def FORMATS : List String := ["json", "yaml", "toml", "lua"]

/-- The content size ceiling (src/index.js line 40). -/
def MAX_CONTENT_SIZE : Nat := 1024 * 1024

/-- The expected value of the `x-rapidapi-proxy-secret` header
(src/index.js line 82). -/
def proxySecret : String := "52b69850-f3af-11f0-8b51-f73a198fecf8"

/-- One field of the request body as JSON parsing delivers it: absent, a
string, or a value of any other type (carrying its JS truthiness). -/
inductive JField where
  | absent
  | jstr (s : String)
  | other (truthy : Bool)
deriving DecidableEq

/-- The destructured request body `const \x7b from, to, content \x7d = body`
(src/index.js line 99). -/
structure RequestBody where
  from' : JField
  to' : JField
  content : JField
deriving DecidableEq

/-- The JavaScript test `!x || typeof x !== "string"` (src/index.js lines
106, 131, 156): true for absent fields, for the empty string (falsy), and
for every non-string value. -/
def fieldFails : JField → Bool
  | .jstr s => s = ""
  | _ => true

/-- The string carried by a field; only consulted after `fieldFails` is
false, so the default is irrelevant. -/
def fieldStr : JField → String
  | .jstr s => s
  | _ => ""

/-- The spec's reading of field validity, amended to JavaScript truthiness:
present, a string, and non-empty. -/
def presentNonEmpty : JField → Bool
  | .jstr s => s ≠ ""
  | _ => false

/-- UTF-16 code-unit count: the JavaScript `String.prototype.length` used
by the size check (src/index.js line 168). -/
def jsLength (s : String) : Nat :=
  (s.data.map (fun c => if c.toNat < 65536 then 1 else 2)).sum

/-- UTF-8 byte count of a text. -/
def utf8Len (s : String) : Nat := (s.data.map Char.utf8Size).sum

/-- Prefix test on character lists. -/
def startsWithChars : List Char → List Char → Bool
  | [], _ => true
  | _ :: _, [] => false
  | p :: ps, c :: cs => p = c && startsWithChars ps cs

/-- Substring occurrence test on character lists. -/
def includesChars (pat : List Char) : List Char → Bool
  | [] => startsWithChars pat []
  | c :: cs => startsWithChars pat (c :: cs) || includesChars pat cs

/-- The JavaScript `String.prototype.includes` (case-sensitive substring
containment). -/
def jsIncludes (s pat : String) : Bool := includesChars pat.data s.data

/-- The value of the JavaScript expression `hints[format] || ""`: either a
string (an own hint entry, possibly empty, or the empty string for an
undefined key), or a truthy non-string member inherited from
`Object.prototype` when `format` is one of its property keys. -/
inductive HintResult where
  | str (s : String)
  | inherited (key : String)
deriving DecidableEq

/-- The property keys every plain object literal inherits from
`Object.prototype` (ECMAScript): bracket lookup with one of these keys walks
the prototype chain and finds a truthy non-string member. -/
def objectPrototypeKeys : List String :=
  ["constructor", "hasOwnProperty", "isPrototypeOf", "propertyIsEnumerable",
   "toLocaleString", "toString", "valueOf", "__defineGetter__",
   "__defineSetter__", "__lookupGetter__", "__lookupSetter__", "__proto__"]

/-- Embeds `getFormatHint` (src/index.js lines 51-67): the per-format
substring-matched hints, returned as `hints[format] || ""`.  For the four
own keys the lookup finds the (possibly empty) hint string, and `||` maps an
empty hint to `""` — the identity on these strings.  For every other key the
bracket lookup walks the prototype chain: the keys of `Object.prototype`
find a truthy inherited member, which `||` returns as-is (a non-string
value, carried here as `.inherited`); all remaining keys are `undefined`,
and `|| ""` yields the empty string. -/
def getFormatHint (format error : String) : HintResult :=
  let jsonHint := if jsIncludes error "Unexpected token" then
    " Check for trailing commas or unquoted keys." else ""
  let yamlHint := if jsIncludes error "bad indentation" then
    " Check YAML indentation (use spaces, not tabs)." else ""
  let tomlHint := if jsIncludes error "Expected" then
    " Check for missing quotes around strings." else ""
  let luaHint := if jsIncludes error "unexpected symbol" then
    " Check Lua table syntax \x7b key = value \x7d." else ""
  if format = "json" then .str jsonHint
  else if format = "yaml" then .str yamlHint
  else if format = "toml" then .str tomlHint
  else if format = "lua" then .str luaHint
  else if objectPrototypeKeys.contains format then .inherited format
  else .str ""

/-- The template interpolation of the hint (src/index.js line 208).  Behind
the validation gate `parseFailResp` only ever sees `from` in json/yaml/toml,
where the hint is a string; the interpolation of an inherited function is
unreachable there and is not modelled further. -/
def hintInterp : HintResult → String
  | .str s => s
  | .inherited _ => ""

/-- The response shape of `POST /convert`: HTTP status plus the optional
JSON body fields the handler ever sets. -/
structure Response where
  status : Nat
  success : Option Bool
  error : Option String
  code : Option String
  result : Option String
  format : Option String
  conversion : Option String
deriving DecidableEq

/-- A validation-stage error response. -/
def errResp (status : Nat) (msg code : String) : Response :=
  ⟨status, some false, some msg, some code, none, none, none⟩

/-- The 401 response of the header check (src/index.js line 83): an error
message only — no success flag, no code. -/
def authResponse : Response :=
  ⟨401, none, some "Unauthorized access. Please use RapidAPI.", none, none, none, none⟩

/-- The success response (src/index.js line 238). -/
def successResp (result : String) : Response :=
  ⟨200, some true, none, none, some result, none, none⟩

/-- ASCII uppercasing, the `toUpperCase()` applied to the format tags
(all of which are ASCII). -/
def jsToUpper (s : String) : String := String.mk (s.data.map Char.toUpper)

/-- The decode-failure response (src/index.js lines 204-213). -/
def parseFailResp (fromFmt msg : String) : Response :=
  ⟨422, some false,
    some ("Failed to parse " ++ jsToUpper fromFmt ++ ":\n          " ++ msg
      ++ hintInterp (getFormatHint fromFmt msg)),
    some ("PARSE_" ++ jsToUpper fromFmt ++ "_FAILED"), none, some fromFmt, none⟩

/-- The encode-failure response (src/index.js lines 226-235). -/
def stringifyFailResp (fromFmt toFmt msg : String) : Response :=
  ⟨422, some false,
    some ("Failed to convert to " ++ jsToUpper toFmt ++ ":\n          " ++ msg),
    some ("STRINGIFY_" ++ jsToUpper toFmt ++ "_FAILED"), none, none,
    some (fromFmt ++ " -> " ++ toFmt)⟩

/-- The YAML and TOML adapters (js-yaml's `load`/`dump`, smol-toml's
`parse`/`stringify`): external library code, abstracted as parameters. -/
structure Codecs where
  yamlLoad : String → Except String Value
  tomlParse : String → Except String Value
  yamlDump : Value → Except String String
  tomlStringify : Value → Except String String

/-- The decode step (src/index.js lines 196-201).  The JSON branch uses the
modelled `JSON.parse`; its error message text is library-dependent and not
modelled.  The final branch is unreachable behind the validation gate. -/
def decodeContent (cs : Codecs) (fromFmt content : String) : Except String Value :=
  if fromFmt = "json" then
    match jsonParse content with
    | some v => .ok v
    | none => .error "JSON.parse error"
  else if fromFmt = "yaml" then cs.yamlLoad content
  else if fromFmt = "toml" then cs.tomlParse content
  else .error "unreachable"

/-- The encode step (src/index.js lines 217-224). -/
def encodeContent (cs : Codecs) (toFmt : String) (data : Value) : Except String String :=
  if toFmt = "json" then .ok (jsonStringify data)
  else if toFmt = "yaml" then cs.yamlDump data
  else if toFmt = "toml" then cs.tomlStringify data
  else if toFmt = "lua" then .ok ("return " ++ toLua data)
  else .error "unreachable"

/-- Embeds the `POST /convert` handler (src/index.js lines 80-250): the
header check, the validation chain in source order, then decode and encode.
The CONTENT_TOO_LARGE message elides the interpolated megabyte figure,
whose floating-point formatting is outside the embedding. -/
def convert (cs : Codecs) (secretHeader : Option String)
    (body : Option RequestBody) : Response :=
  if secretHeader ≠ some proxySecret then authResponse
  else match body with
  | none => errResp 400 "Invalid JSON body" "INVALID_BODY"
  | some b =>
    if fieldFails b.from' then
      errResp 400
        "Missing or invalid 'from' format. Expected: json, yaml, toml, or lua"
        "INVALID_FROM"
    else if ¬ FORMATS.contains (fieldStr b.from') then
      errResp 400 ("Unsupported 'from' format: " ++ fieldStr b.from')
        "UNSUPPORTED_FROM"
    else if fieldFails b.to' then
      errResp 400
        "Missing or invalid 'to' format. Expected: json, yaml, toml, or lua"
        "INVALID_TO"
    else if ¬ FORMATS.contains (fieldStr b.to') then
      errResp 400 ("Unsupported format: '" ++ fieldStr b.to' ++ "'. Supported: "
        ++ String.intercalate ", " FORMATS) "UNSUPPORTED_TO"
    else if fieldFails b.content then
      errResp 400 "Missing or invalid 'content'. Expected non-empty string"
        "INVALID_CONTENT"
    else if MAX_CONTENT_SIZE < jsLength (fieldStr b.content) then
      errResp 413 "Content exceeds 1MB limit" "CONTENT_TOO_LARGE"
    else if fieldStr b.from' = "lua" then
      errResp 400 "Lua input parsing is currently disabled (Coming Soon)."
        "UNSUPPORTED_FROM_LUA"
    else
      match decodeContent cs (fieldStr b.from') (fieldStr b.content) with
      | .error msg => parseFailResp (fieldStr b.from') msg
      | .ok data =>
        match encodeContent cs (fieldStr b.to') data with
        | .error msg => stringifyFailResp (fieldStr b.from') (fieldStr b.to') msg
        | .ok result => successResp result

/-- Modelled from the spec (section 4.4): the validation gate's checks in
their specified order, short-circuiting on the first failure, with the one
amendment C3's counterexample forces — "present and a string" strengthened
to "present and a non-empty string" (JavaScript truthiness treats the empty
string as absent).  Returns the (status, code) of the first failing check,
or none when the gate passes. -/
def specGate (body : Option RequestBody) : Option (Nat × String) :=
  match body with
  | none => some (400, "INVALID_BODY")
  | some b =>
    if presentNonEmpty b.from' = false then some (400, "INVALID_FROM")
    else if ¬ FORMATS.contains (fieldStr b.from') then some (400, "UNSUPPORTED_FROM")
    else if presentNonEmpty b.to' = false then some (400, "INVALID_TO")
    else if ¬ FORMATS.contains (fieldStr b.to') then some (400, "UNSUPPORTED_TO")
    else if presentNonEmpty b.content = false then some (400, "INVALID_CONTENT")
    else if MAX_CONTENT_SIZE < jsLength (fieldStr b.content) then
      some (413, "CONTENT_TOO_LARGE")
    else if fieldStr b.from' = "lua" then some (400, "UNSUPPORTED_FROM_LUA")
    else none

/-- The YAML document of spec section 8, scenario 2. -/
def yamlScenarioContent : String := "database:\n  host: localhost\n  port: 5432"

/-- A concrete instantiation of the abstract YAML/TOML adapters, used only
to evaluate closed statements; the real adapters are the js-yaml and
smol-toml libraries, dependencies rather than repository source. -/
def testCodecs : Codecs where
  yamlLoad s := if s = yamlScenarioContent then .ok dbValue else .error "YAMLException"
  tomlParse _ := .error "TomlError"
  yamlDump _ := .ok ""
  tomlStringify _ := .ok ""

/-- The conversion stage (src/index.js lines 194-249): the part of the
handler a request reaches once the whole validation gate has passed. -/
def conversionStage (cs : Codecs) (fromS toS content : String) : Response :=
  match decodeContent cs fromS content with
  | .error msg => parseFailResp fromS msg
  | .ok data =>
    match encodeContent cs toS data with
    | .error msg => stringifyFailResp fromS toS msg
    | .ok result => successResp result

/-- An ASCII content of exactly 1,048,576 characters. -/
def maxSizeContent : String := String.mk (List.replicate 1048576 'a')

/-- An ASCII content of exactly 1,048,577 characters. -/
def overSizeContent : String := String.mk (List.replicate 1048577 'a')

/-- A content of 524,289 copies of a two-byte character: 1,048,578 UTF-8
bytes but only 524,289 UTF-16 code units. -/
def overByteContent : String := String.mk (List.replicate 524289 'é')

/-- The digit-character list of a natural number, most significant first:
the list `natDecGo` produces with sufficient fuel. -/
def dsOf (n : Nat) : List Char :=
  if n < 10 then [decDigit n]
  else dsOf (n / 10) ++ [decDigit (n % 10)]
decreasing_by exact Nat.div_lt_self (by omega) (by omega)

/-- The numeric value of a digit-character run, folded onto an accumulator
exactly as `readDigits` computes it. -/
def dsVal (ds : List Char) (acc : Nat) : Nat :=
  ds.foldl (fun a c => a * 10 + digitVal c) acc

/-- Every character of the list is JSON whitespace. -/
def allWs (l : List Char) : Prop := ∀ c ∈ l, isJsonWs c = true

/-- The list does not begin with a decimal digit (so a preceding numeric
literal cannot absorb it). -/
def noDigitHead : List Char → Prop
  | [] => True
  | c :: _ => isDigitChar c = false

mutual

/-- Fuel bound sufficient for `parseVal` to consume a printed value. -/
def vb : Value → Nat
  | .seq vs => lb vs + 1
  | .mapping kvs => mb kvs + 1
  | _ => 1

/-- Fuel bound sufficient for `parseItems` to consume printed items. -/
def lb : List Value → Nat
  | [] => 1
  | v :: vs => max (vb v) (lb vs) + 1

/-- Fuel bound sufficient for `parseMembers` to consume printed members. -/
def mb : List (String × Value) → Nat
  | [] => 1
  | kv :: kvs => max (vb kv.2) (mb kvs) + 1

end

theorem mk_append (a b : List Char) : String.mk a ++ String.mk b = String.mk (a ++ b) := rfl

theorem intercalate_go_acc (s : String) : ∀ (bs : List String) (a b : String),
    String.intercalate.go (a ++ b) s bs = a ++ String.intercalate.go b s bs := by
  intro bs
  induction bs with
  | nil => intro a b; simp [String.intercalate.go]
  | cons c cs ih =>
    intro a b
    show String.intercalate.go (a ++ b ++ s ++ c) s cs
        = a ++ String.intercalate.go (b ++ s ++ c) s cs
    rw [← ih a (b ++ s ++ c)]
    congr 1
    simp [String.append_assoc]

theorem intercalate_cons₂ (s x y : String) (rest : List String) :
    String.intercalate s (x :: y :: rest) = x ++ s ++ String.intercalate s (y :: rest) := by
  show String.intercalate.go (x ++ s ++ y) s rest = _
  rw [intercalate_go_acc]
  rfl

/-- The comma-space join of the rendered mapping entries, phrased as the
specification phrases it: a map over the entries in order, intercalated
with a comma and a space. -/
theorem luaFields_intercalate : ∀ kvs : List (String × Value),
    luaFields kvs
      = String.intercalate ", "
          (kvs.map (fun kv => "[\"" ++ kv.1 ++ "\"] = " ++ toLua kv.2)) := by
  intro kvs
  induction kvs with
  | nil => rfl
  | cons kv rest ih =>
    cases rest with
    | nil => rfl
    | cons kv' rest' =>
      rw [List.map_cons, List.map_cons, intercalate_cons₂]
      simp only [List.map_cons] at ih
      rw [← ih]
      rfl

theorem luaElems_intercalate : ∀ vs : List Value,
    luaElems vs = String.intercalate ", " (vs.map toLua) := by
  intro vs
  induction vs with
  | nil => rfl
  | cons v rest ih =>
    cases rest with
    | nil => rfl
    | cons v' rest' =>
      rw [List.map_cons, List.map_cons, intercalate_cons₂]
      simp only [List.map_cons] at ih
      rw [← ih]
      rfl

/-- C2: for every string value the Lua encoder produces a double-quoted
literal in which each embedded double-quote character is escaped by a
prefixed backslash and nothing else is altered: the escaping map distributes
over concatenation, sends the double-quote character to backslash-quote, and
leaves every other character (newlines, backslashes, ...) unchanged. -/
theorem lua_string_escaping :
    (∀ s : String, toLua (.str s) = "\"" ++ escapeQuotes s ++ "\"")
    ∧ (∀ a b : String, escapeQuotes (a ++ b) = escapeQuotes a ++ escapeQuotes b)
    ∧ escapeQuotes "\"" = "\\\""
    ∧ (∀ c : Char, c ≠ '"' → escapeQuotes (String.singleton c) = String.singleton c) := by
  refine ⟨fun s => by simp [toLua], fun a b => ?_, by decide, fun c h => ?_⟩
  · cases a; cases b
    simp [escapeQuotes, mk_append]
  · simp [escapeQuotes, String.singleton, String.push, h]

/-- Witness for C2: the backslash and newline characters pass through the
Lua string escaping unchanged. -/
theorem lua_string_escaping_witness :
    escapeQuotes (String.singleton '\\') = String.singleton '\\' :=
  lua_string_escaping.2.2.2 '\\' (by decide)

/-- C8: the Lua encoder renders the empty Sequence and the empty Mapping as
the same text, an empty-brace table with two inner spaces, so the two are
indistinguishable in the Lua output. -/
theorem lua_empty_collections :
    toLua (.seq []) = "\x7b  \x7d" ∧ toLua (.mapping []) = "\x7b  \x7d"
    ∧ toLua (.seq []) = toLua (.mapping []) := by decide

/-- C9: the Lua encoder never escapes characters inside mapping keys: every
single-entry mapping renders with the raw key text spliced verbatim between
the bracket-quote delimiters (while string values are quote-escaped), and
encoding is total, as the concrete quote-bearing key shows. -/
theorem lua_mapping_keys_unescaped :
    (∀ (k : String) (v : Value),
      toLua (.mapping [(k, v)]) = "\x7b [\"" ++ k ++ "\"] = " ++ toLua v ++ " \x7d")
    ∧ toLua (.mapping [("a\"b", .null)]) = "\x7b [\"a\"b\"] = nil \x7d" := by
  refine ⟨fun k v => ?_, by decide⟩
  show "\x7b " ++ luaFields [(k, v)] ++ " \x7d" = _
  show "\x7b " ++ ("[\"" ++ k ++ "\"] = " ++ toLua v) ++ " \x7d" = _
  simp [← String.append_assoc]

theorem fieldFails_eq (f : JField) : fieldFails f = !presentNonEmpty f := by
  cases f <;> simp [fieldFails, presentNonEmpty]

/-- C10: any request whose `x-rapidapi-proxy-secret` header is absent or
differs from the expected value receives the fixed 401 response — an error
message only, no success flag and no code field — regardless of the body
and of the format adapters, i.e. before the body is read and before any
validation check. -/
theorem auth_check_first (cs : Codecs) (secretHeader : Option String)
    (body : Option RequestBody) (h : secretHeader ≠ some proxySecret) :
    convert cs secretHeader body = authResponse
      ∧ authResponse.status = 401
      ∧ authResponse.error = some "Unauthorized access. Please use RapidAPI."
      ∧ authResponse.success = none
      ∧ authResponse.code = none := by
  refine ⟨?_, rfl, rfl, rfl, rfl⟩
  simp [convert, h]

/-- Witness for C10: a request with no secret header is rejected with the
bare 401 response. -/
theorem auth_check_first_witness :
    convert testCodecs none (some ⟨.jstr "json", .jstr "json", .jstr "1"⟩)
      = authResponse :=
  (auth_check_first testCodecs none
    (some ⟨.jstr "json", .jstr "json", .jstr "1"⟩) (by decide)).1

/-- C5: every request with `from = "lua"` that passes the preceding checks
is rejected with UNSUPPORTED_FROM_LUA and HTTP 400; the response does not
depend on the format adapters, so no decode of the content is attempted. -/
theorem lua_from_rejected (cs : Codecs) (toF contentF : JField) (s : String)
    (hto : fieldFails toF = false)
    (htoFmt : FORMATS.contains (fieldStr toF) = true)
    (hcontent : contentF = .jstr s) (hne : s ≠ "")
    (hsize : jsLength s ≤ MAX_CONTENT_SIZE) :
    convert cs (some proxySecret) (some ⟨.jstr "lua", toF, contentF⟩)
      = errResp 400 "Lua input parsing is currently disabled (Coming Soon)."
          "UNSUPPORTED_FROM_LUA" := by
  subst hcontent
  have h1 : fieldFails (JField.jstr "lua") = false := by decide
  have h2 : FORMATS.contains (fieldStr (JField.jstr "lua")) = true := by decide
  have h3 : fieldFails (JField.jstr s) = false := by simp [fieldFails, hne]
  have h4 : ¬ (MAX_CONTENT_SIZE < jsLength s) := Nat.not_lt.mpr hsize
  have h5 : fieldStr toF ∈ FORMATS := by simpa using htoFmt
  have h6 : ("lua" : String) ∈ FORMATS := by decide
  have e1 : fieldStr (JField.jstr "lua") = "lua" := rfl
  have e2 : fieldStr (JField.jstr s) = s := rfl
  simp [convert, h1, h3, h4, hto, h5, h6, e1, e2]

/-- Witness for C5: the scenario-4 request (`from=lua, to=json`) is
rejected with UNSUPPORTED_FROM_LUA. -/
theorem lua_from_rejected_witness :
    convert testCodecs (some proxySecret)
      (some ⟨.jstr "lua", .jstr "json", .jstr "\x7bname='x'\x7d"⟩)
      = errResp 400 "Lua input parsing is currently disabled (Coming Soon)."
          "UNSUPPORTED_FROM_LUA" :=
  lua_from_rejected testCodecs (.jstr "json") (.jstr "\x7bname='x'\x7d")
    "\x7bname='x'\x7d" (by decide) (by decide) rfl (by decide) (by decide)


theorem jsLength_replicate (n : Nat) (c : Char) (h : c.toNat < 65536) :
    jsLength (String.mk (List.replicate n c)) = n := by
  simp [jsLength, List.map_replicate, h, List.sum_replicate]

theorem utf8Len_replicate (n : Nat) (c : Char) :
    utf8Len (String.mk (List.replicate n c)) = n * c.utf8Size := by
  simp [utf8Len, List.map_replicate, List.sum_replicate, smul_eq_mul]

theorem mk_replicate_ne_empty (n : Nat) (c : Char) (h : 0 < n) :
    String.mk (List.replicate n c) ≠ "" := by
  intro e
  have hd : List.replicate n c = ([] : List Char) := by
    have := congrArg String.data e
    simpa using this
  have := congrArg List.length hd
  simp at this
  omega

theorem convert_proceeds (cs : Codecs) (f t s : String)
    (hf : f ∈ FORMATS) (hfl : f ≠ "lua") (ht : t ∈ FORMATS) (hs : s ≠ "")
    (hsize : jsLength s ≤ MAX_CONTENT_SIZE) :
    convert cs (some proxySecret) (some ⟨.jstr f, .jstr t, .jstr s⟩)
      = conversionStage cs f t s := by
  have hfne : f ≠ "" := by intro e; rw [e] at hf; exact absurd hf (by decide)
  have htne : t ≠ "" := by intro e; rw [e] at ht; exact absurd ht (by decide)
  have h1 : fieldFails (JField.jstr f) = false := by simp [fieldFails, hfne]
  have h2 : fieldFails (JField.jstr t) = false := by simp [fieldFails, htne]
  have h3 : fieldFails (JField.jstr s) = false := by simp [fieldFails, hs]
  have h4 : ¬ (MAX_CONTENT_SIZE < jsLength s) := Nat.not_lt.mpr hsize
  have e1 : fieldStr (JField.jstr f) = f := rfl
  have e2 : fieldStr (JField.jstr t) = t := rfl
  have e3 : fieldStr (JField.jstr s) = s := rfl
  simp [convert, conversionStage, h1, h2, h3, h4, hf, ht, hfl, e1, e2, e3]

theorem convert_too_large (cs : Codecs) (f t s : String)
    (hf : f ∈ FORMATS) (ht : t ∈ FORMATS) (hs : s ≠ "")
    (hsize : MAX_CONTENT_SIZE < jsLength s) :
    convert cs (some proxySecret) (some ⟨.jstr f, .jstr t, .jstr s⟩)
      = errResp 413 "Content exceeds 1MB limit" "CONTENT_TOO_LARGE" := by
  have hfne : f ≠ "" := by intro e; rw [e] at hf; exact absurd hf (by decide)
  have htne : t ≠ "" := by intro e; rw [e] at ht; exact absurd ht (by decide)
  have h1 : fieldFails (JField.jstr f) = false := by simp [fieldFails, hfne]
  have h2 : fieldFails (JField.jstr t) = false := by simp [fieldFails, htne]
  have h3 : fieldFails (JField.jstr s) = false := by simp [fieldFails, hs]
  have e1 : fieldStr (JField.jstr f) = f := rfl
  have e2 : fieldStr (JField.jstr t) = t := rfl
  have e3 : fieldStr (JField.jstr s) = s := rfl
  simp [convert, h1, h2, h3, hf, ht, e1, e2, e3, hsize]

/-- C4 (amended): the handler's size ceiling is MAX_CONTENT_SIZE = 1,048,576
measured in UTF-16 code units of the raw content text (the JavaScript string
length, which coincides with the byte count for ASCII content), not on the
decoded value: an otherwise-valid request whose content is within the
ceiling passes the size check and proceeds to the conversion stage, and any
longer content is rejected with CONTENT_TOO_LARGE and HTTP status 413. -/
theorem content_size_limit (cs : Codecs) (f t s : String)
    (hf : f ∈ FORMATS) (hfl : f ≠ "lua") (ht : t ∈ FORMATS) (hs : s ≠ "") :
    (jsLength s ≤ MAX_CONTENT_SIZE →
      convert cs (some proxySecret) (some ⟨.jstr f, .jstr t, .jstr s⟩)
        = conversionStage cs f t s)
    ∧ (MAX_CONTENT_SIZE < jsLength s →
      convert cs (some proxySecret) (some ⟨.jstr f, .jstr t, .jstr s⟩)
        = errResp 413 "Content exceeds 1MB limit" "CONTENT_TOO_LARGE")
    ∧ MAX_CONTENT_SIZE = 1048576 :=
  ⟨fun h => convert_proceeds cs f t s hf hfl ht hs h,
   fun h => convert_too_large cs f t s hf ht hs h, rfl⟩

/-- Witness for C4: an ASCII content of exactly 1,048,576 characters passes
the size check and reaches the conversion stage; one of 1,048,577 characters
is rejected with 413 and CONTENT_TOO_LARGE. -/
theorem content_size_limit_witness :
    convert testCodecs (some proxySecret)
      (some ⟨.jstr "yaml", .jstr "json", .jstr maxSizeContent⟩)
      = conversionStage testCodecs "yaml" "json" maxSizeContent
    ∧ convert testCodecs (some proxySecret)
      (some ⟨.jstr "yaml", .jstr "json", .jstr overSizeContent⟩)
      = errResp 413 "Content exceeds 1MB limit" "CONTENT_TOO_LARGE" := by
  constructor
  · refine (content_size_limit testCodecs "yaml" "json" maxSizeContent
      (by decide) (by decide) (by decide)
      (mk_replicate_ne_empty 1048576 'a' (by norm_num))).1 ?_
    rw [show jsLength maxSizeContent = 1048576 from
      jsLength_replicate 1048576 'a' (by decide)]
    norm_num [MAX_CONTENT_SIZE]
  · refine (content_size_limit testCodecs "yaml" "json" overSizeContent
      (by decide) (by decide) (by decide)
      (mk_replicate_ne_empty 1048577 'a' (by norm_num))).2.1 ?_
    rw [show jsLength overSizeContent = 1048577 from
      jsLength_replicate 1048577 'a' (by decide)]
    norm_num [MAX_CONTENT_SIZE]

/-- C4 counterexample: a content of 1,048,578 UTF-8 bytes (524,289 copies of
a two-byte character) is NOT rejected with CONTENT_TOO_LARGE: its JavaScript
string length is only 524,289, so it passes the size check and the request
fails later in the decode stage with 422 and PARSE_YAML_FAILED. -/
theorem content_size_limit_cex :
    1048577 ≤ utf8Len overByteContent
    ∧ (convert testCodecs (some proxySecret)
        (some ⟨.jstr "yaml", .jstr "json", .jstr overByteContent⟩)).status = 422
    ∧ (convert testCodecs (some proxySecret)
        (some ⟨.jstr "yaml", .jstr "json", .jstr overByteContent⟩)).code
        = some "PARSE_YAML_FAILED" := by
  have hlen : overByteContent.data.length = 524289 := List.length_replicate 524289 'é'
  have hny : overByteContent ≠ yamlScenarioContent := by
    intro e
    have h1 : overByteContent.data.length = yamlScenarioContent.data.length := by rw [e]
    have h2 : yamlScenarioContent.data.length = 40 := by decide
    rw [hlen, h2] at h1
    exact absurd h1 (by norm_num)
  have hjs : jsLength overByteContent = 524289 :=
    jsLength_replicate 524289 'é' (by decide)
  have hu : utf8Len overByteContent = 524289 * Char.utf8Size 'é' :=
    utf8Len_replicate 524289 'é'
  have hc : convert testCodecs (some proxySecret)
      (some ⟨.jstr "yaml", .jstr "json", .jstr overByteContent⟩)
      = conversionStage testCodecs "yaml" "json" overByteContent := by
    refine convert_proceeds testCodecs "yaml" "json" overByteContent
      (by decide) (by decide) (by decide)
      (mk_replicate_ne_empty 524289 'é' (by norm_num)) ?_
    rw [hjs]
    norm_num [MAX_CONTENT_SIZE]
  have hstage : conversionStage testCodecs "yaml" "json" overByteContent
      = parseFailResp "yaml" "YAMLException" := by
    simp [conversionStage, decodeContent, testCodecs, hny]
  refine ⟨?_, ?_, ?_⟩
  · rw [hu, show Char.utf8Size 'é' = 2 from by decide]
    norm_num
  · rw [hc, hstage]
    rfl
  · rw [hc, hstage]
    show some ("PARSE_" ++ jsToUpper "yaml" ++ "_FAILED") = some "PARSE_YAML_FAILED"
    decide

/-- C3 (amended): with the proxy secret in place the handler's responses
agree with the specification's ordered, short-circuiting validation gate,
with "present and a string" read as "present and a non-empty string" (the
code's JavaScript truthiness treats the empty string like an absent field):
whenever the spec-side gate reports a failing check the handler returns
exactly its status and code; when the gate passes, the handler proceeds to
conversion (status 200 or 422); and every request whose `from` is a
non-empty string outside the supported set is answered UNSUPPORTED_FROM. -/
theorem validation_gate_order (cs : Codecs) :
    (∀ (body : Option RequestBody) (st : Nat) (code : String),
        specGate body = some (st, code) →
        (convert cs (some proxySecret) body).status = st
          ∧ (convert cs (some proxySecret) body).code = some code)
    ∧ (∀ body : Option RequestBody, specGate body = none →
        (convert cs (some proxySecret) body).status = 200
          ∨ (convert cs (some proxySecret) body).status = 422)
    ∧ (∀ (s : String) (t c : JField), s ≠ "" → s ∉ FORMATS →
        (convert cs (some proxySecret) (some ⟨.jstr s, t, c⟩)).code
          = some "UNSUPPORTED_FROM") := by
  have hauth : ¬ ((some proxySecret : Option String) ≠ some proxySecret) := by simp
  have key : ∀ body : Option RequestBody,
      (∀ st code, specGate body = some (st, code) →
        (convert cs (some proxySecret) body).status = st
          ∧ (convert cs (some proxySecret) body).code = some code)
      ∧ (specGate body = none →
        (convert cs (some proxySecret) body).status = 200
          ∨ (convert cs (some proxySecret) body).status = 422) := by
    intro body
    cases body with
    | none =>
      constructor
      · intro st code h
        simp only [specGate, Option.some.injEq, Prod.mk.injEq] at h
        obtain ⟨h1, h2⟩ := h
        simp [convert, errResp, ← h1, ← h2]
      · intro h
        simp [specGate] at h
    | some b =>
      constructor
      · intro st code h
        simp only [specGate] at h
        simp only [convert, fieldFails_eq, Bool.not_eq_true']
        rw [if_neg hauth]
        split_ifs at h ⊢ <;> simp_all [errResp]
      · intro h
        simp only [specGate] at h
        simp only [convert, fieldFails_eq, Bool.not_eq_true']
        rw [if_neg hauth]
        split_ifs at h ⊢
        rcases hd : decodeContent cs (fieldStr b.from') (fieldStr b.content)
            with msg | data
        · simp [hd, parseFailResp]
        · rcases he : encodeContent cs (fieldStr b.to') data with m | r
          · simp [hd, he, stringifyFailResp]
          · simp [hd, he, successResp]
  refine ⟨fun body => (key body).1, fun body => (key body).2, ?_⟩
  intro s t c hne hnot
  have hsg : specGate (some ⟨.jstr s, t, c⟩) = some (400, "UNSUPPORTED_FROM") := by
    simp [specGate, presentNonEmpty, fieldStr, hne, hnot]
  exact ((key (some ⟨.jstr s, t, c⟩)).1 400 "UNSUPPORTED_FROM" hsg).2

/-- Witness for C3: the spec-side gate reports INVALID_BODY for an
unparseable body and UNSUPPORTED_FROM for `from = "xml"`, and the handler
answers with exactly those statuses and codes. -/
theorem validation_gate_order_witness :
    ((convert testCodecs (some proxySecret) none).status = 400
      ∧ (convert testCodecs (some proxySecret) none).code = some "INVALID_BODY")
    ∧ (convert testCodecs (some proxySecret)
        (some ⟨.jstr "xml", .jstr "json", .jstr "1"⟩)).code
        = some "UNSUPPORTED_FROM" :=
  ⟨(validation_gate_order testCodecs).1 none 400 "INVALID_BODY" rfl,
   (validation_gate_order testCodecs).2.2 "xml" (.jstr "json") (.jstr "1")
     (by decide) (by decide)⟩

/-- C3 counterexample: a `from` field holding the empty string — present, a
string, and not a member of the supported-format set — is answered with
INVALID_FROM, not UNSUPPORTED_FROM as the claim requires. -/
theorem validation_gate_order_cex :
    ("" : String) ∉ FORMATS
    ∧ (convert testCodecs (some proxySecret)
        (some ⟨.jstr "", .jstr "json", .jstr "1"⟩)).code = some "INVALID_FROM"
    ∧ (convert testCodecs (some proxySecret)
        (some ⟨.jstr "", .jstr "json", .jstr "1"⟩)).code
        ≠ some "UNSUPPORTED_FROM" := by decide

/-- C6 (amended): the hint selector is a pure function of the format and the
raw error text, with case-sensitive substring matching exactly as the code
spells the patterns: a JSON error containing "Unexpected token" (capital U)
yields the trailing-commas hint, a YAML error containing "bad indentation"
yields the tabs-vs-spaces hint, a TOML error containing "Expected" (capital
E) yields the missing-quotes hint, and for each of these formats every
unmatched error — including errors containing only differently-cased
variants of the patterns — yields the empty string, never a fabricated
hint. -/
theorem format_hint_selection :
    (∀ e : String, jsIncludes e "Unexpected token" = true →
        getFormatHint "json" e
          = .str " Check for trailing commas or unquoted keys.")
    ∧ (∀ e : String, jsIncludes e "Unexpected token" = false →
        getFormatHint "json" e = .str "")
    ∧ (∀ e : String, jsIncludes e "bad indentation" = true →
        getFormatHint "yaml" e
          = .str " Check YAML indentation (use spaces, not tabs).")
    ∧ (∀ e : String, jsIncludes e "bad indentation" = false →
        getFormatHint "yaml" e = .str "")
    ∧ (∀ e : String, jsIncludes e "Expected" = true →
        getFormatHint "toml" e
          = .str " Check for missing quotes around strings.")
    ∧ (∀ e : String, jsIncludes e "Expected" = false →
        getFormatHint "toml" e = .str "") := by
  exact ⟨fun e h => by simp [getFormatHint, h], fun e h => by simp [getFormatHint, h],
    fun e h => by simp [getFormatHint, h], fun e h => by simp [getFormatHint, h],
    fun e h => by simp [getFormatHint, h], fun e h => by simp [getFormatHint, h]⟩

/-- Witness for C6: a capitalised JSON parser message receives the
trailing-commas hint, and a lowercase one receives no hint. -/
theorem format_hint_selection_witness :
    getFormatHint "json" "Unexpected token , in JSON at position 5"
      = .str " Check for trailing commas or unquoted keys."
    ∧ getFormatHint "json" "totally unknown failure" = .str "" :=
  ⟨format_hint_selection.1 "Unexpected token , in JSON at position 5" (by decide),
   format_hint_selection.2.1 "totally unknown failure" (by decide)⟩

/-- C6 counterexample: error texts containing the claim's lowercase
substrings "unexpected token" and "expected" yield no hint at all, because
the code matches "Unexpected token" and "Expected" case-sensitively. -/
theorem format_hint_selection_cex :
    getFormatHint "json" "unexpected token , in JSON at position 5" = .str ""
    ∧ getFormatHint "toml" "expected value" = .str ""
    ∧ HintResult.str ""
        ≠ HintResult.str " Check for trailing commas or unquoted keys."
    ∧ HintResult.str ""
        ≠ HintResult.str " Check for missing quotes around strings." := by decide

/-- C1: the Lua encoder renders every Mapping as a brace-delimited table of
bracketed-string-key entries in insertion order, comma-space separated; in
particular the scenario-2 value renders exactly as the spec requires, and a
`from=yaml, to=lua` request for that document succeeds with exactly that
result whenever the YAML adapter decodes the document to that value tree. -/
theorem lua_mapping_rendering :
    (∀ kvs : List (String × Value),
        toLua (.mapping kvs)
          = "\x7b " ++ String.intercalate ", "
              (kvs.map (fun kv => "[\"" ++ kv.1 ++ "\"] = " ++ toLua kv.2)) ++ " \x7d")
    ∧ ("return " ++ toLua dbValue = scenario2Result)
    ∧ (∀ cs : Codecs, cs.yamlLoad yamlScenarioContent = .ok dbValue →
        convert cs (some proxySecret)
          (some ⟨.jstr "yaml", .jstr "lua", .jstr yamlScenarioContent⟩)
          = successResp scenario2Result) := by
  refine ⟨fun kvs => ?_, by decide, fun cs h => ?_⟩
  · show "\x7b " ++ luaFields kvs ++ " \x7d" = _
    rw [luaFields_intercalate]
  · rw [convert_proceeds cs "yaml" "lua" yamlScenarioContent
      (by decide) (by decide) (by decide) (by decide) (by decide)]
    simp [conversionStage, decodeContent, encodeContent, h]
    decide

/-- Witness for C1: with a YAML adapter that decodes the scenario-2 document
to the expected value tree, the request succeeds with exactly the expected
Lua chunk. -/
theorem lua_mapping_rendering_witness :
    convert testCodecs (some proxySecret)
      (some ⟨.jstr "yaml", .jstr "lua", .jstr yamlScenarioContent⟩)
      = successResp scenario2Result :=
  lua_mapping_rendering.2.2 testCodecs rfl

theorem isDigit_decDigit (d : Nat) : isDigitChar (decDigit d) = true := by
  match d with
  | 0 => rfl
  | 1 => rfl
  | 2 => rfl
  | 3 => rfl
  | 4 => rfl
  | 5 => rfl
  | 6 => rfl
  | 7 => rfl
  | 8 => rfl
  | n + 9 => rfl

theorem digitVal_decDigit (d : Nat) (h : d < 10) : digitVal (decDigit d) = d := by
  match d with
  | 0 => rfl
  | 1 => rfl
  | 2 => rfl
  | 3 => rfl
  | 4 => rfl
  | 5 => rfl
  | 6 => rfl
  | 7 => rfl
  | 8 => rfl
  | n + 9 =>
    have hn : n = 0 := by omega
    subst hn
    rfl

theorem natDecGo_eq_dsOf : ∀ (fuel n : Nat) (acc : List Char), n < fuel →
    natDecGo fuel n acc = dsOf n ++ acc := by
  intro fuel
  induction fuel with
  | zero => intro n acc h; omega
  | succ fuel ih =>
    intro n acc h
    by_cases h10 : n < 10
    · rw [natDecGo, if_pos h10, dsOf, if_pos h10]
      rfl
    · have hdiv : n / 10 < fuel := by
        have := Nat.div_lt_self (show 0 < n by omega) (show 1 < 10 by omega)
        omega
      have hds : dsOf n = dsOf (n / 10) ++ [decDigit (n % 10)] := by
        rw [dsOf, if_neg h10]
      rw [natDecGo, if_neg h10, ih (n / 10) _ hdiv, hds, List.append_assoc]
      rfl

theorem dsOf_digits : ∀ n : Nat, ∀ c ∈ dsOf n, isDigitChar c = true := by
  intro n
  induction n using Nat.strong_induction_on with
  | _ n ih =>
    intro c hc
    by_cases h10 : n < 10
    · rw [dsOf, if_pos h10] at hc
      simp at hc
      subst hc
      exact isDigit_decDigit n
    · rw [dsOf, if_neg h10] at hc
      rcases List.mem_append.mp hc with h | h
      · exact ih (n / 10) (Nat.div_lt_self (by omega) (by omega)) c h
      · simp at h
        subst h
        exact isDigit_decDigit (n % 10)

theorem dsVal_append_single (ds : List Char) (c : Char) (acc : Nat) :
    dsVal (ds ++ [c]) acc = dsVal ds acc * 10 + digitVal c := by
  simp [dsVal, List.foldl_append]

theorem dsOf_val : ∀ n : Nat, dsVal (dsOf n) 0 = n := by
  intro n
  induction n using Nat.strong_induction_on with
  | _ n ih =>
    by_cases h10 : n < 10
    · rw [dsOf, if_pos h10]
      simp [dsVal, digitVal_decDigit n h10]
    · rw [dsOf, if_neg h10, dsVal_append_single,
        ih (n / 10) (Nat.div_lt_self (by omega) (by omega)),
        digitVal_decDigit (n % 10) (Nat.mod_lt n (by omega))]
      omega

theorem dsOf_head : ∀ n : Nat, ∃ d tail, d ≤ 9 ∧ dsOf n = decDigit d :: tail := by
  intro n
  induction n using Nat.strong_induction_on with
  | _ n ih =>
    by_cases h10 : n < 10
    · exact ⟨n, [], by omega, by rw [dsOf, if_pos h10]⟩
    · obtain ⟨d, tail, hd, htl⟩ := ih (n / 10) (Nat.div_lt_self (by omega) (by omega))
      exact ⟨d, tail ++ [decDigit (n % 10)], hd, by rw [dsOf, if_neg h10, htl]; rfl⟩

theorem readDigits_spec : ∀ (ds rest : List Char) (acc : Nat),
    (∀ c ∈ ds, isDigitChar c = true) → noDigitHead rest →
    readDigits (ds ++ rest) acc = (dsVal ds acc, rest) := by
  intro ds
  induction ds with
  | nil =>
    intro rest acc _ hrest
    cases rest with
    | nil => rfl
    | cons c cs =>
      simp only [noDigitHead] at hrest
      simp [readDigits, hrest, dsVal]
  | cons c ds ih =>
    intro rest acc hds hrest
    have hc : isDigitChar c = true := hds c (by simp)
    simp only [List.cons_append, readDigits, hc, if_true, List.append_eq]
    rw [ih rest _ (fun x hx => hds x (by simp [hx])) hrest]
    rfl

theorem skipWs_append_allWs : ∀ (l cs : List Char), allWs l →
    skipWs (l ++ cs) = skipWs cs := by
  intro l
  induction l with
  | nil => intro cs _; rfl
  | cons c l ih =>
    intro cs h
    have hc : isJsonWs c = true := h c (by simp)
    simp only [List.cons_append, skipWs, hc, if_true]
    exact ih cs (fun x hx => h x (by simp [hx]))

theorem skipWs_not_ws (c : Char) (cs : List Char) (h : isJsonWs c = false) :
    skipWs (c :: cs) = c :: cs := by
  simp [skipWs, h]

theorem hexVal_hexDigit (d : Nat) (h : d < 16) : hexVal (hexDigit d) = some d := by
  match d with
  | 0 => rfl
  | 1 => rfl
  | 2 => rfl
  | 3 => rfl
  | 4 => rfl
  | 5 => rfl
  | 6 => rfl
  | 7 => rfl
  | 8 => rfl
  | 9 => rfl
  | 10 => rfl
  | 11 => rfl
  | 12 => rfl
  | 13 => rfl
  | 14 => rfl
  | n + 15 =>
    have hn : n = 0 := by omega
    subst hn
    rfl

theorem readStr_esc : ∀ (cs acc rest : List Char),
    readStr (escJsonString cs ++ '"' :: rest) acc
      = some (String.mk (acc.reverse ++ cs), rest) := by
  intro cs
  induction cs with
  | nil =>
    intro acc rest
    simp [escJsonString, readStr]
  | cons c cs ih =>
    intro acc rest
    have hesc : escJsonString (c :: cs) ++ '"' :: rest
        = escJsonChar c ++ (escJsonString cs ++ '"' :: rest) := by
      simp [escJsonString]
    rw [hesc]
    by_cases h1 : c = '"'
    · subst h1
      simp [escJsonChar, readStr, unescapeChar, ih]
    by_cases h2 : c = '\\'
    · subst h2
      simp [escJsonChar, readStr, unescapeChar, ih]
    by_cases h3 : c = '\n'
    · subst h3
      simp [escJsonChar, readStr, unescapeChar, ih]
    by_cases h4 : c = '\r'
    · subst h4
      simp [escJsonChar, readStr, unescapeChar, ih]
    by_cases h5 : c = '\t'
    · subst h5
      simp [escJsonChar, readStr, unescapeChar, ih]
    by_cases h6 : c.toNat = 8
    · have hc : c = Char.ofNat 8 := by rw [← Char.ofNat_toNat c, h6]
      subst hc
      simp [escJsonChar, readStr, unescapeChar, ih]
    by_cases h7 : c.toNat = 12
    · have hc : c = Char.ofNat 12 := by rw [← Char.ofNat_toNat c, h7]
      subst hc
      simp [escJsonChar, readStr, unescapeChar, ih]
    by_cases h8 : c.toNat < 32
    · rw [show escJsonChar c
          = ['\\', 'u', '0', '0', hexDigit (c.toNat / 16), hexDigit (c.toNat % 16)]
        from by simp [escJsonChar, h1, h2, h3, h4, h5, h6, h7, h8]]
      simp only [List.cons_append, List.nil_append, readStr,
        hexVal_hexDigit (c.toNat / 16) (by omega),
        hexVal_hexDigit (c.toNat % 16) (by omega),
        show hexVal '0' = some 0 from rfl]
      rw [show ((0 * 16 + 0) * 16 + c.toNat / 16) * 16 + c.toNat % 16 = c.toNat
        from by omega]
      rw [show validScalar c.toNat = true from by simp [validScalar]; omega]
      simp only [if_true]
      rw [Char.ofNat_toNat]
      simp only [List.append_eq, List.nil_append]
      rw [ih]
      simp
    · rw [show escJsonChar c = [c]
        from by simp [escJsonChar, h1, h2, h3, h4, h5, h6, h7, h8]]
      simp only [List.cons_append, List.nil_append]
      rw [show readStr (c :: (escJsonString cs ++ '"' :: rest)) acc
          = readStr (escJsonString cs ++ '"' :: rest) (c :: acc)
        from by simp [readStr, h1, h2, h8]]
      rw [ih]
      simp

theorem allWs_nil : allWs [] := by intro c h; cases h

theorem allWs_newline : allWs ['\n'] := by
  intro c h
  simp at h
  subst h
  rfl

theorem allWs_indent (n : Nat) : allWs (indentChars n) := by
  intro c h
  rw [indentChars] at h
  have := List.eq_of_mem_replicate h
  subst this
  rfl

theorem allWs_append {a b : List Char} (ha : allWs a) (hb : allWs b) :
    allWs (a ++ b) := by
  intro c h
  rcases List.mem_append.mp h with h | h
  · exact ha c h
  · exact hb c h

theorem ws_not_digit (c : Char) (h : isJsonWs c = true) : isDigitChar c = false := by
  simp [isJsonWs] at h
  rcases h with ((h | h) | h) | h <;> subst h <;> rfl

theorem noDigitHead_ws_append (c : Char) (mid rest : List Char)
    (hc : isDigitChar c = false) (hmid : allWs mid) :
    noDigitHead (mid ++ c :: rest) := by
  cases mid with
  | nil => exact hc
  | cons m ms => exact ws_not_digit m (hmid m (by simp))

theorem natDec_data (m : Nat) : (natDec m).data = dsOf m := by
  show natDecGo (m + 1) m [] = dsOf m
  rw [natDecGo_eq_dsOf _ _ _ (Nat.lt_succ_self _), List.append_nil]

theorem intDec_data_nonneg (n : Int) (h : ¬ n < 0) :
    (intDec n).data = dsOf n.natAbs := by
  rw [intDec, if_neg h]
  exact natDec_data n.natAbs

theorem intDec_data_neg (n : Int) (h : n < 0) :
    (intDec n).data = '-' :: dsOf n.natAbs := by
  rw [intDec, if_pos h]
  show ("-".data ++ (natDec n.natAbs).data : List Char) = _
  rw [natDec_data]
  rfl

theorem decDigit_not_special (d : Nat) :
    isJsonWs (decDigit d) = false ∧ decDigit d ≠ ']' ∧ decDigit d ≠ '\x7d' := by
  match d with
  | 0 => exact ⟨rfl, by decide, by decide⟩
  | 1 => exact ⟨rfl, by decide, by decide⟩
  | 2 => exact ⟨rfl, by decide, by decide⟩
  | 3 => exact ⟨rfl, by decide, by decide⟩
  | 4 => exact ⟨rfl, by decide, by decide⟩
  | 5 => exact ⟨rfl, by decide, by decide⟩
  | 6 => exact ⟨rfl, by decide, by decide⟩
  | 7 => exact ⟨rfl, by decide, by decide⟩
  | 8 => exact ⟨rfl, by decide, by decide⟩
  | n + 9 => exact ⟨rfl, by show ('9' : Char) ≠ ']'; decide,
      by show ('9' : Char) ≠ '\x7d'; decide⟩

theorem jsonChars_head (v : Value) (ind : Nat) :
    ∃ cH t, jsonChars ind v = cH :: t ∧ isJsonWs cH = false
      ∧ cH ≠ ']' ∧ cH ≠ '\x7d' := by
  cases v with
  | null => exact ⟨'n', _, rfl, rfl, by decide, by decide⟩
  | bool b =>
    cases b with
    | true => exact ⟨'t', _, rfl, rfl, by decide, by decide⟩
    | false => exact ⟨'f', _, rfl, rfl, by decide, by decide⟩
  | num n =>
    by_cases h : n < 0
    · exact ⟨'-', _, by rw [show jsonChars ind (Value.num n) = (intDec n).data from rfl,
        intDec_data_neg n h], rfl, by decide, by decide⟩
    · obtain ⟨d, tail, _, htl⟩ := dsOf_head n.natAbs
      obtain ⟨hw, hb1, hb2⟩ := decDigit_not_special d
      exact ⟨decDigit d, tail, by rw [show jsonChars ind (Value.num n) = (intDec n).data from rfl,
        intDec_data_nonneg n h, htl], hw, hb1, hb2⟩
  | str s => exact ⟨'"', _, rfl, rfl, by decide, by decide⟩
  | seq vs =>
    cases vs with
    | nil => exact ⟨'[', _, rfl, rfl, by decide, by decide⟩
    | cons v vs => exact ⟨'[', _, rfl, rfl, by decide, by decide⟩
  | mapping kvs =>
    cases kvs with
    | nil => exact ⟨'\x7b', _, rfl, rfl, by decide, by decide⟩
    | cons kv kvs => exact ⟨'\x7b', _, rfl, rfl, by decide, by decide⟩

theorem parseVal_ws (fuel : Nat) (ws X : List Char) (hws : allWs ws) :
    parseVal (fuel + 1) (ws ++ X) = parseVal (fuel + 1) X := by
  simp only [parseVal]
  rw [skipWs_append_allWs _ _ hws]

theorem parseVal_null (fuel : Nat) (X : List Char) :
    parseVal (fuel + 1) ('n' :: 'u' :: 'l' :: 'l' :: X) = some (.null, X) := by
  simp [parseVal, skipWs, isJsonWs]

theorem parseVal_true (fuel : Nat) (X : List Char) :
    parseVal (fuel + 1) ('t' :: 'r' :: 'u' :: 'e' :: X) = some (.bool true, X) := by
  simp [parseVal, skipWs, isJsonWs]

theorem parseVal_false (fuel : Nat) (X : List Char) :
    parseVal (fuel + 1) ('f' :: 'a' :: 'l' :: 's' :: 'e' :: X) = some (.bool false, X) := by
  simp [parseVal, skipWs, isJsonWs]

theorem parseVal_str (fuel : Nat) (X : List Char) :
    parseVal (fuel + 1) ('"' :: X)
      = match readStr X [] with
        | some (s, r) => some (.str s, r)
        | none => none := by
  simp [parseVal, skipWs, isJsonWs]

theorem parseVal_neg (fuel : Nat) (c : Char) (X : List Char) :
    parseVal (fuel + 1) ('-' :: c :: X)
      = if isDigitChar c then
          match readDigits X (digitVal c) with
          | (n, r) => some (.num (-(n : Int)), r)
        else none := by
  simp [parseVal, skipWs, isJsonWs]

theorem parseVal_digit_head (fuel : Nat) (d : Nat) (hd : d ≤ 9) (X : List Char) :
    parseVal (fuel + 1) (decDigit d :: X)
      = match readDigits X (digitVal (decDigit d)) with
        | (n, r) => some (.num (n : Int), r) := by
  interval_cases d <;>
    simp [parseVal, skipWs, isJsonWs, isDigitChar, digitVal, decDigit]

theorem parseVal_bracket_empty (fuel : Nat) (X r : List Char)
    (h : skipWs X = ']' :: r) :
    parseVal (fuel + 1) ('[' :: X) = some (.seq [], r) := by
  simp [parseVal, skipWs, isJsonWs, h]

theorem parseVal_bracket (fuel : Nat) (X : List Char) (cH : Char) (Y : List Char)
    (h : skipWs X = cH :: Y) (hne : cH ≠ ']') :
    parseVal (fuel + 1) ('[' :: X)
      = match parseItems fuel X with
        | some (vs, r) => some (.seq vs, r)
        | none => none := by
  simp [parseVal, skipWs, isJsonWs, h, hne]

theorem parseVal_brace_empty (fuel : Nat) (X r : List Char)
    (h : skipWs X = '\x7d' :: r) :
    parseVal (fuel + 1) ('\x7b' :: X) = some (.mapping [], r) := by
  simp [parseVal, skipWs, isJsonWs, h]

theorem parseVal_brace (fuel : Nat) (X : List Char) (cH : Char) (Y : List Char)
    (h : skipWs X = cH :: Y) (hne : cH ≠ '\x7d') :
    parseVal (fuel + 1) ('\x7b' :: X)
      = match parseMembers fuel X with
        | some (kvs, r) => some (.mapping kvs, r)
        | none => none := by
  simp [parseVal, skipWs, isJsonWs, h, hne]

theorem skipWs_lead_chars (lead : List Char) (hlead : allWs lead) (v : Value)
    (ind : Nat) (tail2 : List Char) :
    ∃ cH Y, skipWs (lead ++ (jsonChars ind v ++ tail2)) = cH :: Y
      ∧ isJsonWs cH = false ∧ cH ≠ ']' ∧ cH ≠ '\x7d' := by
  obtain ⟨cH, t, hch, hnws, h1, h2⟩ := jsonChars_head v ind
  refine ⟨cH, t ++ tail2, ?_, hnws, h1, h2⟩
  rw [skipWs_append_allWs _ _ hlead, hch, List.cons_append, skipWs_not_ws _ _ hnws]

theorem jsonItems_decompose (ind : Nat) (v : Value) (vs : List Value) :
    ∃ T, jsonItems ind (v :: vs) = indentChars ind ++ (jsonChars ind v ++ T) := by
  cases vs with
  | nil => exact ⟨[], by simp [jsonItems]⟩
  | cons v2 vs2 => exact ⟨',' :: '\n' :: jsonItems ind (v2 :: vs2), by simp [jsonItems]⟩

theorem jsonMembers_decompose (ind : Nat) (kv : String × Value)
    (kvs : List (String × Value)) :
    ∃ T, jsonMembers ind (kv :: kvs)
      = indentChars ind
        ++ ('"' :: (escJsonString kv.1.data
          ++ ('"' :: (':' :: ' ' :: (jsonChars ind kv.2 ++ T))))) := by
  cases kvs with
  | nil =>
    refine ⟨[], ?_⟩
    simp [jsonMembers, strLitChars, List.append_assoc]
  | cons kv2 kvs2 =>
    refine ⟨',' :: '\n' :: jsonMembers ind (kv2 :: kvs2), ?_⟩
    simp [jsonMembers, strLitChars, List.append_assoc]

theorem parse_print : ∀ fuel : Nat,
    (∀ (v : Value) (ind : Nat) (ws rest : List Char), allWs ws → noDigitHead rest →
        vb v ≤ fuel →
        parseVal fuel (ws ++ (jsonChars ind v ++ rest)) = some (v, rest))
    ∧ (∀ (vs : List Value) (ind : Nat) (lead mid rest : List Char), vs ≠ [] →
        allWs lead → allWs mid → lb vs ≤ fuel →
        parseItems fuel (lead ++ (jsonItems ind vs ++ (mid ++ ']' :: rest)))
          = some (vs, rest))
    ∧ (∀ (kvs : List (String × Value)) (ind : Nat) (lead mid rest : List Char),
        kvs ≠ [] → allWs lead → allWs mid → mb kvs ≤ fuel →
        parseMembers fuel (lead ++ (jsonMembers ind kvs ++ (mid ++ '\x7d' :: rest)))
          = some (kvs, rest)) := by
  intro fuel
  induction fuel with
  | zero =>
    refine ⟨fun v ind ws rest _ _ hb => absurd hb ?_,
            fun vs ind lead mid rest hne _ _ hb => ?_,
            fun kvs ind lead mid rest hne _ _ hb => ?_⟩
    · cases v <;> simp [vb]
    · cases vs with
      | nil => exact absurd rfl hne
      | cons v vs => exact absurd hb (by simp [lb])
    · cases kvs with
      | nil => exact absurd rfl hne
      | cons kv kvs => exact absurd hb (by simp [mb])
  | succ fuel ih =>
    obtain ⟨ihA, ihB, ihC⟩ := ih
    refine ⟨?_, ?_, ?_⟩
    · intro v ind ws rest hws hrest hb
      rw [parseVal_ws fuel ws _ hws]
      cases v with
      | null => exact parseVal_null fuel rest
      | bool b =>
        cases b with
        | true => exact parseVal_true fuel rest
        | false => exact parseVal_false fuel rest
      | str s =>
        rw [show jsonChars ind (Value.str s) ++ rest
            = '"' :: (escJsonString s.data ++ '"' :: rest) from by
          show strLitChars s ++ rest = _
          rw [strLitChars]
          simp [List.append_assoc]]
        rw [parseVal_str, readStr_esc]
        rfl
      | num n =>
        obtain ⟨d, tail, hd9, htail⟩ := dsOf_head n.natAbs
        have htaildig : ∀ c ∈ tail, isDigitChar c = true := fun c hc =>
          dsOf_digits n.natAbs c (by rw [htail]; exact List.mem_cons_of_mem _ hc)
        have hval : dsVal tail (digitVal (decDigit d)) = n.natAbs := by
          have h0 := dsOf_val n.natAbs
          rw [htail] at h0
          simpa [dsVal] using h0
        by_cases hneg : n < 0
        · rw [show jsonChars ind (Value.num n) ++ rest
              = '-' :: (decDigit d :: (tail ++ rest)) from by
            show (intDec n).data ++ rest = _
            rw [intDec_data_neg n hneg, htail]
            rfl]
          rw [parseVal_neg, if_pos (isDigit_decDigit d),
              readDigits_spec tail rest _ htaildig hrest]
          simp only [hval]
          have hn : (-(n.natAbs : Int)) = n := by omega
          rw [hn]
        · rw [show jsonChars ind (Value.num n) ++ rest
              = decDigit d :: (tail ++ rest) from by
            show (intDec n).data ++ rest = _
            rw [intDec_data_nonneg n hneg, htail]
            rfl]
          rw [parseVal_digit_head fuel d hd9,
              readDigits_spec tail rest _ htaildig hrest]
          simp only [hval]
          have hn : ((n.natAbs : Int)) = n := by omega
          rw [hn]
      | seq vs =>
        cases vs with
        | nil =>
          rw [show jsonChars ind (Value.seq []) ++ rest = '[' :: (']' :: rest) from rfl]
          exact parseVal_bracket_empty fuel _ rest (skipWs_not_ws _ _ (by rfl))
        | cons v vs' =>
          have hb' : lb (v :: vs') ≤ fuel := by
            simp only [vb] at hb
            omega
          rw [show jsonChars ind (Value.seq (v :: vs')) ++ rest
              = '[' :: (['\n'] ++ (jsonItems (ind + 2) (v :: vs')
                  ++ (('\n' :: indentChars ind) ++ (']' :: rest)))) from by
            simp [jsonChars, List.append_assoc]]
          obtain ⟨T, hT⟩ := jsonItems_decompose (ind + 2) v vs'
          obtain ⟨cH, Y, hskip, hnws, hne1, hne2⟩ :=
            skipWs_lead_chars (['\n'] ++ indentChars (ind + 2))
              (allWs_append allWs_newline (allWs_indent _)) v (ind + 2)
              (T ++ (('\n' :: indentChars ind) ++ (']' :: rest)))
          rw [parseVal_bracket fuel _ cH Y (by
              rw [show ['\n'] ++ (jsonItems (ind + 2) (v :: vs')
                    ++ (('\n' :: indentChars ind) ++ (']' :: rest)))
                  = (['\n'] ++ indentChars (ind + 2))
                    ++ (jsonChars (ind + 2) v
                      ++ (T ++ (('\n' :: indentChars ind) ++ (']' :: rest)))) from by
                rw [hT]
                simp [List.append_assoc]]
              exact hskip) hne1]
          rw [ihB (v :: vs') (ind + 2) ['\n'] ('\n' :: indentChars ind) rest
            (by simp) allWs_newline
            (allWs_append allWs_newline (allWs_indent ind)) hb']
      | mapping kvs =>
        cases kvs with
        | nil =>
          rw [show jsonChars ind (Value.mapping []) ++ rest
              = '\x7b' :: ('\x7d' :: rest) from rfl]
          exact parseVal_brace_empty fuel _ rest (skipWs_not_ws _ _ (by rfl))
        | cons kv kvs' =>
          have hb' : mb (kv :: kvs') ≤ fuel := by
            simp only [vb] at hb
            omega
          rw [show jsonChars ind (Value.mapping (kv :: kvs')) ++ rest
              = '\x7b' :: (['\n'] ++ (jsonMembers (ind + 2) (kv :: kvs')
                  ++ (('\n' :: indentChars ind) ++ ('\x7d' :: rest)))) from by
            simp [jsonChars, List.append_assoc]]
          obtain ⟨T, hT⟩ := jsonMembers_decompose (ind + 2) kv kvs'
          have hskip : skipWs (['\n'] ++ (jsonMembers (ind + 2) (kv :: kvs')
              ++ (('\n' :: indentChars ind) ++ ('\x7d' :: rest))))
              = '"' :: (escJsonString kv.1.data
                ++ ('"' :: (':' :: ' ' :: (jsonChars (ind + 2) kv.2
                  ++ (T ++ (('\n' :: indentChars ind) ++ ('\x7d' :: rest))))))) := by
            rw [show ['\n'] ++ (jsonMembers (ind + 2) (kv :: kvs')
                  ++ (('\n' :: indentChars ind) ++ ('\x7d' :: rest)))
                = (['\n'] ++ indentChars (ind + 2))
                  ++ ('"' :: (escJsonString kv.1.data
                    ++ ('"' :: (':' :: ' ' :: (jsonChars (ind + 2) kv.2
                      ++ (T ++ (('\n' :: indentChars ind) ++ ('\x7d' :: rest)))))))) from by
              rw [hT]
              simp [List.append_assoc]]
            rw [skipWs_append_allWs _ _ (allWs_append allWs_newline (allWs_indent _))]
            exact skipWs_not_ws _ _ (by rfl)
          rw [parseVal_brace fuel _ '"' _ hskip (by decide)]
          rw [ihC (kv :: kvs') (ind + 2) ['\n'] ('\n' :: indentChars ind) rest
            (by simp) allWs_newline
            (allWs_append allWs_newline (allWs_indent ind)) hb']
    · intro vs ind lead mid rest hne hlead hmid hb
      cases vs with
      | nil => exact absurd rfl hne
      | cons v vs' =>
        have hws' : allWs (lead ++ indentChars ind) :=
          allWs_append hlead (allWs_indent ind)
        cases vs' with
        | nil =>
          have hbv : vb v ≤ fuel := by
            simp only [lb] at hb
            omega
          rw [show lead ++ (jsonItems ind [v] ++ (mid ++ ']' :: rest))
              = (lead ++ indentChars ind)
                ++ (jsonChars ind v ++ (mid ++ ']' :: rest)) from by
            simp [jsonItems, List.append_assoc]]
          simp only [parseItems]
          rw [ihA v ind (lead ++ indentChars ind) (mid ++ ']' :: rest) hws'
            (noDigitHead_ws_append ']' mid rest (by rfl) hmid) hbv]
          simp only []
          rw [skipWs_append_allWs _ _ hmid, skipWs_not_ws _ _ (by rfl)]
          simp
        | cons v' vs'' =>
          have hbv : vb v ≤ fuel := by
            simp only [lb] at hb
            omega
          have hbt : lb (v' :: vs'') ≤ fuel := by
            simp only [lb] at hb ⊢
            omega
          rw [show lead ++ (jsonItems ind (v :: v' :: vs'') ++ (mid ++ ']' :: rest))
              = (lead ++ indentChars ind) ++ (jsonChars ind v
                ++ (',' :: ('\n' :: (jsonItems ind (v' :: vs'')
                  ++ (mid ++ ']' :: rest))))) from by
            simp [jsonItems, List.append_assoc]]
          simp only [parseItems]
          rw [ihA v ind _ _ hws' (by exact rfl) hbv]
          simp only []
          rw [skipWs_not_ws _ _ (by rfl)]
          simp only []
          rw [show ('\n' :: (jsonItems ind (v' :: vs'') ++ (mid ++ ']' :: rest)))
              = ['\n'] ++ (jsonItems ind (v' :: vs'') ++ (mid ++ ']' :: rest)) from rfl]
          rw [ihB (v' :: vs'') ind ['\n'] mid rest (by simp) allWs_newline hmid hbt]
    · intro kvs ind lead mid rest hne hlead hmid hb
      cases kvs with
      | nil => exact absurd rfl hne
      | cons kv kvs' =>
        have hws' : allWs (lead ++ indentChars ind) :=
          allWs_append hlead (allWs_indent ind)
        cases kvs' with
        | nil =>
          have hbv : vb kv.2 ≤ fuel := by
            simp only [mb] at hb
            omega
          rw [show lead ++ (jsonMembers ind [kv] ++ (mid ++ '\x7d' :: rest))
              = (lead ++ indentChars ind) ++ ('"' :: (escJsonString kv.1.data
                ++ ('"' :: (':' :: (' ' :: (jsonChars ind kv.2
                  ++ (mid ++ '\x7d' :: rest))))))) from by
            simp [jsonMembers, strLitChars, List.append_assoc]]
          simp only [parseMembers]
          rw [skipWs_append_allWs _ _ hws', skipWs_not_ws _ _ (by rfl)]
          simp only []
          rw [readStr_esc]
          simp only []
          rw [skipWs_not_ws _ _ (by rfl)]
          simp only []
          rw [show (' ' :: (jsonChars ind kv.2 ++ (mid ++ '\x7d' :: rest)))
              = [' '] ++ (jsonChars ind kv.2 ++ (mid ++ '\x7d' :: rest)) from rfl]
          rw [ihA kv.2 ind [' '] (mid ++ '\x7d' :: rest)
            (by intro c hc; simp at hc; subst hc; rfl)
            (noDigitHead_ws_append '\x7d' mid rest (by rfl) hmid) hbv]
          simp only []
          rw [skipWs_append_allWs _ _ hmid, skipWs_not_ws _ _ (by rfl)]
          simp
        | cons kv' kvs'' =>
          have hbv : vb kv.2 ≤ fuel := by
            simp only [mb] at hb
            omega
          have hbt : mb (kv' :: kvs'') ≤ fuel := by
            simp only [mb] at hb ⊢
            omega
          rw [show lead ++ (jsonMembers ind (kv :: kv' :: kvs'') ++ (mid ++ '\x7d' :: rest))
              = (lead ++ indentChars ind) ++ ('"' :: (escJsonString kv.1.data
                ++ ('"' :: (':' :: (' ' :: (jsonChars ind kv.2
                  ++ (',' :: ('\n' :: (jsonMembers ind (kv' :: kvs'')
                    ++ (mid ++ '\x7d' :: rest)))))))))) from by
            simp [jsonMembers, strLitChars, List.append_assoc]]
          simp only [parseMembers]
          rw [skipWs_append_allWs _ _ hws', skipWs_not_ws _ _ (by rfl)]
          simp only []
          rw [readStr_esc]
          simp only []
          rw [skipWs_not_ws _ _ (by rfl)]
          simp only []
          rw [show (' ' :: (jsonChars ind kv.2
                ++ (',' :: ('\n' :: (jsonMembers ind (kv' :: kvs'')
                  ++ (mid ++ '\x7d' :: rest))))))
              = [' '] ++ (jsonChars ind kv.2
                ++ (',' :: ('\n' :: (jsonMembers ind (kv' :: kvs'')
                  ++ (mid ++ '\x7d' :: rest))))) from rfl]
          rw [ihA kv.2 ind [' '] _
            (by intro c hc; simp at hc; subst hc; rfl)
            (by exact rfl) hbv]
          simp only []
          rw [skipWs_not_ws _ _ (by rfl)]
          simp only []
          rw [show ('\n' :: (jsonMembers ind (kv' :: kvs'') ++ (mid ++ '\x7d' :: rest)))
              = ['\n'] ++ (jsonMembers ind (kv' :: kvs'') ++ (mid ++ '\x7d' :: rest)) from rfl]
          rw [ihC (kv' :: kvs'') ind ['\n'] mid rest (by simp) allWs_newline hmid hbt]
          simp

theorem jsonChars_len_pos (v : Value) (ind : Nat) : 1 ≤ (jsonChars ind v).length := by
  obtain ⟨cH, t, hch, _⟩ := jsonChars_head v ind
  rw [hch]
  simp

theorem size_bound : ∀ n : Nat,
    (∀ (v : Value) (ind : Nat), vb v ≤ n → vb v ≤ (jsonChars ind v).length)
    ∧ (∀ (vs : List Value) (ind : Nat), vs ≠ [] → lb vs ≤ n →
        lb vs ≤ (jsonItems ind vs).length + 1)
    ∧ (∀ (kvs : List (String × Value)) (ind : Nat), kvs ≠ [] → mb kvs ≤ n →
        mb kvs ≤ (jsonMembers ind kvs).length + 1) := by
  intro n
  induction n using Nat.strong_induction_on with
  | _ n ih =>
    refine ⟨?_, ?_, ?_⟩
    · intro v ind hb
      cases v with
      | null => simp [vb, jsonChars]
      | bool b => cases b <;> simp [vb, jsonChars]
      | num n' =>
        have := jsonChars_len_pos (Value.num n') ind
        simp only [vb]
        omega
      | str s =>
        have := jsonChars_len_pos (Value.str s) ind
        simp only [vb]
        omega
      | seq vs =>
        cases vs with
        | nil => simp [vb, lb, jsonChars]
        | cons v vs' =>
          have hlt : lb (v :: vs') < n := by
            simp only [vb] at hb
            omega
          have h2 := (ih _ hlt).2.1 (v :: vs') (ind + 2) (by simp) (le_refl _)
          simp only [vb, jsonChars]
          simp only [List.length_cons, List.length_append, indentChars,
            List.length_replicate]
          omega
      | mapping kvs =>
        cases kvs with
        | nil => simp [vb, mb, jsonChars]
        | cons kv kvs' =>
          have hlt : mb (kv :: kvs') < n := by
            simp only [vb] at hb
            omega
          have h2 := (ih _ hlt).2.2 (kv :: kvs') (ind + 2) (by simp) (le_refl _)
          simp only [vb, jsonChars]
          simp only [List.length_cons, List.length_append, indentChars,
            List.length_replicate]
          omega
    · intro vs ind hne hb
      cases vs with
      | nil => exact absurd rfl hne
      | cons v vs' =>
        have hvlt : vb v < n := by
          simp only [lb] at hb
          omega
        have hv := (ih _ hvlt).1 v ind (le_refl _)
        have hvpos := jsonChars_len_pos v ind
        cases vs' with
        | nil =>
          simp only [lb]
          simp only [jsonItems, List.length_append, indentChars,
            List.length_replicate]
          omega
        | cons v' vs'' =>
          have htlt : lb (v' :: vs'') < n := by
            simp only [lb] at hb ⊢
            omega
          have ht := (ih _ htlt).2.1 (v' :: vs'') ind (by simp) (le_refl _)
          simp only [lb] at ht ⊢
          simp only [jsonItems, List.length_append, List.length_cons, indentChars,
            List.length_replicate]
          simp only [lb] at hb
          omega
    · intro kvs ind hne hb
      cases kvs with
      | nil => exact absurd rfl hne
      | cons kv kvs' =>
        have hvlt : vb kv.2 < n := by
          simp only [mb] at hb
          omega
        have hv := (ih _ hvlt).1 kv.2 ind (le_refl _)
        have hvpos := jsonChars_len_pos kv.2 ind
        cases kvs' with
        | nil =>
          simp only [mb]
          simp only [jsonMembers, List.length_append, List.length_cons, indentChars,
            List.length_replicate]
          omega
        | cons kv' kvs'' =>
          have htlt : mb (kv' :: kvs'') < n := by
            simp only [mb] at hb ⊢
            omega
          have ht := (ih _ htlt).2.2 (kv' :: kvs'') ind (by simp) (le_refl _)
          simp only [mb] at ht ⊢
          simp only [jsonMembers, List.length_append, List.length_cons, indentChars,
            List.length_replicate]
          simp only [mb] at hb
          omega

theorem jsonParse_stringify (v : Value) : jsonParse (jsonStringify v) = some v := by
  have hsl : (jsonStringify v).length = (jsonChars 0 v).length := rfl
  have hlen : vb v ≤ (jsonStringify v).length + 1 := by
    have := (size_bound (vb v)).1 v 0 (le_refl _)
    omega
  have hparse := (parse_print ((jsonStringify v).length + 1)).1 v 0 [] []
    allWs_nil trivial hlen
  simp only [List.nil_append, List.append_nil] at hparse
  show (match parseVal ((jsonStringify v).length + 1) (jsonStringify v).data with
        | some (v, rest) => if skipWs rest = [] then some v else none
        | none => none) = some v
  rw [show (jsonStringify v).data = jsonChars 0 v from rfl, hparse]
  rfl

/-- C7: JSON self-conversion is idempotent up to parsing: for every valid
request with `from=json, to=json` whose content parses as JSON, the handler
succeeds with `JSON.stringify` of the parsed value as the result, and that
result parses back to exactly the value parsed from the input content. -/
theorem json_self_conversion (cs : Codecs) (s : String) (v : Value)
    (hparse : jsonParse s = some v) (hsize : jsLength s ≤ MAX_CONTENT_SIZE) :
    convert cs (some proxySecret) (some ⟨.jstr "json", .jstr "json", .jstr s⟩)
      = successResp (jsonStringify v)
    ∧ jsonParse (jsonStringify v) = some v := by
  constructor
  · have hne : s ≠ "" := by
      intro e
      subst e
      rw [show jsonParse "" = none from rfl] at hparse
      cases hparse
    rw [convert_proceeds cs "json" "json" s (by decide) (by decide) (by decide)
      hne hsize]
    simp [conversionStage, decodeContent, encodeContent, hparse]
  · exact jsonParse_stringify v

/-- Witness for C7: converting the JSON text `[1, 2]` from JSON to JSON
succeeds with the pretty-printed rendering of the same two-element array. -/
theorem json_self_conversion_witness :
    convert testCodecs (some proxySecret)
      (some ⟨.jstr "json", .jstr "json", .jstr "[1, 2]"⟩)
      = successResp (jsonStringify (Value.seq [Value.num 1, Value.num 2])) :=
  (json_self_conversion testCodecs "[1, 2]"
    (Value.seq [Value.num 1, Value.num 2]) (by rfl) (by decide)).1

end ConfigAlchemy
